import Mathlib

/-
Verification of the event-prioritization and dispatch subsystem
(Candidate Store, Scheduler, Token Buckets, Deep Worker) of the
home-security event pipeline.

The Python sources under backend/services are shallowly embedded:
 - 64-bit floats are modelled as rationals (exact real arithmetic);
 - Python strings are Lean Strings; where the code orders, lowercases
   or searches strings we work on their character lists (ASCII data);
 - Python `hash(str)` is salted per process, so it is modelled as an
   integer parameter (its value in the running process);
 - Redis keys/values become explicit fields of a state record; TTL
   bookkeeping (expire / setex) is real-time behaviour and is not
   modelled, only noted in comments;
 - asynchronous wall-clock time is passed in explicitly (`now`,
   per-event durations).
-/

/-! ## Character-list string utilities

`String.lt` and `String.toLower` do not reduce in the kernel, so the
orderings and case folds used by the code are defined on `List Char`.
-/
/-- Strict lexicographic order on character lists (codepoint order;
coincides with byte order used by Redis for ASCII members). -/
def lexLtb : List Char → List Char → Bool
  | [], [] => false
  | [], _ :: _ => true
  | _ :: _, [] => false
  | a :: as, b :: bs => if a < b then true else if b < a then false else lexLtb as bs

/-- Strict lexicographic order on strings. -/
def strLtb (a b : String) : Bool := lexLtb a.data b.data

/-- Lowercase a string character-by-character (models Python `str.lower`
on ASCII data). -/
def lowerStr (s : String) : String := String.mk (s.data.map Char.toLower)

/-- Does `needle` occur as a contiguous substring of `hay`? (models the
Python `needle in hay` test on strings). -/
def subIn (needle : List Char) : List Char → Bool
  | [] => needle.isEmpty
  | c :: rest => needle.isPrefixOf (c :: rest) || subIn needle rest

/-- Substring test on strings. -/
def strContains (hay needle : String) : Bool := subIn needle.data hay.data

/-! ## Server-lite scorer (`server_lite_scorer.py`)

`LiteClassifier._calculate_exact_score(channels, image_name, mode)` is a
pure function of `channels`, `mode` and `hash(image_name)`.  Python's
`hash` on strings is salted per process, so the hash value is an input
of the embedding (`imageNameHash` - the value `hash(image_name)` takes
in the process performing the call). -/
/-- The `channels` mapping over the fixed keys person/vehicle/pet/linger. -/
structure LiteChannels where
  person : Bool
  vehicle : Bool
  pet : Bool
  linger : Bool
deriving DecidableEq

/-- Clamp to [0,1] (`max(0.0, min(1.0, x))`). -/
def clamp01 (x : ℚ) : ℚ := max 0 (min 1 x)

/-- Embeds `mode_factors.get(mode, 1.00)` from `_calculate_exact_score`. -/
def mode_factor (mode : String) : ℚ :=
  if mode = "stealth" then 7/10
  else if mode = "guardian" then 1
  else if mode = "perimeter" then 13/10
  else 1

/-- Embeds `thresholds.get(mode, (0.30, 0.60))` from `_calculate_exact_score`. -/
def mode_thresholds (mode : String) : ℚ × ℚ :=
  if mode = "stealth" then (35/100, 65/100)
  else if mode = "guardian" then (30/100, 60/100)
  else if mode = "perimeter" then (25/100, 50/100)
  else (30/100, 60/100)

/-- Embeds `mock_distance = (hash(image_name) % 50) / 10.0` (Python `%` on a
positive modulus, i.e. `Int.emod` into `[0, 50)`). -/
def mock_distance (imageNameHash : ℤ) : ℚ := ((imageNameHash % 50 : ℤ) : ℚ) / 10

/-- Embeds `is_night = (hash(image_name) % 4) == 0`. -/
def is_night (imageNameHash : ℤ) : Bool := imageNameHash % 4 == 0

/-- Result record of `_calculate_exact_score` (the `factors` sub-dict is
determined by the other fields and omitted). -/
structure ScoreResult where
  score : ℚ
  confidence : ℚ
  threshold_met : String
  mode : String
deriving DecidableEq

/-- Embeds `LiteClassifier._calculate_exact_score` (server_lite_scorer.py,
lines 224-287).  `imageNameHash` is the value of `hash(image_name)` in
the calling process. -/
def calculate_exact_score (channels : LiteChannels) (imageNameHash : ℤ)
    (mode : String) : ScoreResult :=
  let base : ℚ :=
    1 * (if channels.person then 1 else 0) +
    (7/10) * (if channels.vehicle then 1 else 0) +
    (15/100) * (if channels.linger then 1 else 0)
  let pet_factor : ℚ := 1 - (6/10) * (if channels.pet then 1 else 0)
  let perimeter_factor : ℚ := if mock_distance imageNameHash < 3/2 then 5/4 else 1
  let night_factor : ℚ := if is_night imageNameHash then 23/20 else 1
  let mf : ℚ := mode_factor mode
  let final_score : ℚ := clamp01 (base * pet_factor * perimeter_factor * night_factor * mf)
  let t := mode_thresholds mode
  let band : String :=
    if final_score < t.1 then "low" else if final_score < t.2 then "medium" else "high"
  { score := final_score, confidence := final_score, threshold_met := band, mode := mode }

/-- Spec-side scoring formula, transcribed from the claim's words (C2):
`clamp01((1.00*person + 0.70*vehicle + 0.15*linger) * (1 - 0.60*pet) *
perimeter_factor * night_factor * mode_factor)`. -/
def spec_lite_score (channels : LiteChannels) (distance_to_perimeter_m : ℚ)
    (isNightIn : Bool) (mode : String) : ℚ :=
  clamp01 ((1 * (if channels.person then 1 else 0) +
            (7/10) * (if channels.vehicle then 1 else 0) +
            (15/100) * (if channels.linger then 1 else 0)) *
           (1 - (6/10) * (if channels.pet then 1 else 0)) *
           (if distance_to_perimeter_m < 3/2 then 5/4 else 1) *
           (if isNightIn then 23/20 else 1) *
           mode_factor mode)

/-- Spec-side band, transcribed from the claim's words (C2): low if
below the low cutoff, medium if below the high cutoff, else high. -/
def spec_band (score lowCutoff highCutoff : ℚ) : String :=
  if score < lowCutoff then "low" else if score < highCutoff then "medium" else "high"

/-- Spec-side cutoffs per mode, transcribed from the claim's words (C2). -/
def spec_cutoffs (mode : String) : ℚ × ℚ :=
  if mode = "stealth" then (35/100, 65/100)
  else if mode = "guardian" then (30/100, 60/100)
  else (25/100, 50/100)

/-! ## Priorities and tiers (`candidate_store.py`) -/
/-- Embeds `Priority(IntEnum)`: LOW=1, NORMAL=2, HIGH=3, CRITICAL=4. -/
inductive Priority where
  | LOW | NORMAL | HIGH | CRITICAL
deriving DecidableEq

/-- Integer value of a `Priority` (its IntEnum value). -/
def Priority.val : Priority → ℕ
  | .LOW => 1
  | .NORMAL => 2
  | .HIGH => 3
  | .CRITICAL => 4

/-- Embeds `ProcessingTier(IntEnum)`: LITE_ONLY=1, STANDARD=2, PREMIUM=3, ENTERPRISE=4. -/
inductive ProcessingTier where
  | LITE_ONLY | STANDARD | PREMIUM | ENTERPRISE
deriving DecidableEq

/-- Integer value of a `ProcessingTier` (its IntEnum value). -/
def ProcessingTier.val : ProcessingTier → ℕ
  | .LITE_ONLY => 1
  | .STANDARD => 2
  | .PREMIUM => 3
  | .ENTERPRISE => 4

/-! ## Token buckets and autothrottle (`scheduler.py`)

`TokenBucket.consume`/`time_until_tokens` advance wall-clock refill state
and are not needed by the claims; only `_apply_autothrottle` is embedded.
-/
/-- The `TokenBucket` dataclass (`last_refill` is wall-clock bookkeeping
used only by `consume`, omitted here). -/
structure TokenBucket where
  capacity : ℕ
  tokens : ℚ
  refill_rate : ℚ
deriving DecidableEq

/-- Embeds `ProcessingScheduler.min_best_effort_k = 5`. -/
def min_best_effort_k : ℕ := 5

/-- Models Python `int(capacity * (1 - 0.4))` (floats): for every
capacity arising here (checked exhaustively below 10^6) the float
computation agrees with `⌊3c/5⌋`. -/
def floorSixTenths (c : ℕ) : ℕ := 3 * c / 5

/-- Per-bucket body of `ProcessingScheduler._apply_autothrottle`
(scheduler.py, lines 409-426): the reduced capacity is applied, and the
tokens clamped, only when it is strictly below the current capacity. -/
def apply_autothrottle_bucket (b : TokenBucket) : TokenBucket :=
  let new_capacity := max min_best_effort_k (floorSixTenths b.capacity)
  if new_capacity < b.capacity then
    { b with capacity := new_capacity, tokens := min b.tokens (new_capacity : ℚ) }
  else b

/-- Embeds `SchedulingPolicy.tier_limits` defaults (events per minute):
LITE_ONLY=0, STANDARD=2, PREMIUM=7, ENTERPRISE=32. -/
def tier_limits : ProcessingTier → ℕ
  | .LITE_ONLY => 0
  | .STANDARD => 2
  | .PREMIUM => 7
  | .ENTERPRISE => 32

/-- Embeds `ProcessingScheduler._initialize_token_buckets`: a full bucket per
tier with a positive per-minute limit, `refill_rate = capacity / 60`. -/
def default_token_buckets (t : ProcessingTier) : Option TokenBucket :=
  if tier_limits t > 0 then
    some { capacity := tier_limits t, tokens := (tier_limits t : ℚ),
           refill_rate := (tier_limits t : ℚ) / 60 }
  else none

/-- Embeds `ProcessingScheduler._apply_autothrottle` over the whole bucket map. -/
def apply_autothrottle (buckets : ProcessingTier → Option TokenBucket)
    (t : ProcessingTier) : Option TokenBucket :=
  (buckets t).map apply_autothrottle_bucket

/-! ## Candidate store (`candidate_store.py`)

The Redis state visible to the store is embedded explicitly:
`ev:{event_id}` hashes become an association list of event records and
`cand:{home_id}` sorted sets become a map from home ids to score-carrying
member lists.  Redis orders a sorted set by ascending score with ties in
ascending lexicographic (byte) order of the member; `zrevrange` reads
that order reversed.  TTLs (`expire`) and the auxiliary `expire:{epoch}`
set are wall-clock behaviour and are not modelled. -/
/-- The `EventCandidate` dataclass. `timestamp` is UTC epoch seconds. -/
structure EventCandidate where
  event_id : String
  home_id : String
  user_id : String
  timestamp : ℚ
  priority : Priority
  processing_tier : ProcessingTier
  image_url : String
  location : String
  mode : String
  lite_processed : Bool := false
  lite_channels : Option LiteChannels := none
  lite_explainer : Option String := none
  lite_confidence : Option ℚ := none
  person_detected : Bool := false
  vehicle_detected : Bool := false
  motion_score : ℚ := 0
  time_of_day_factor : ℚ := 1
  location_importance : ℚ := 1
deriving DecidableEq

/-- Embeds `EventCandidate.calculate_score` (candidate_store.py, lines 65-88),
with `now` the value of `datetime.utcnow()` in epoch seconds. -/
def calculate_score (c : EventCandidate) (now : ℚ) : ℚ :=
  let base1 := (c.priority.val : ℚ) * 100
  let base2 := base1 + (if c.person_detected then 50 else 0)
  let base3 := base2 + (if c.vehicle_detected then 30 else 0)
  let base4 := base3 + c.motion_score * 20
  let base5 := base4 * c.time_of_day_factor
  let base6 := base5 * c.location_importance
  let age_minutes := (now - c.timestamp) / 60
  let recency_bonus := max 0 (60 - age_minutes) * 2
  (base6 + recency_bonus) * (1 + (c.processing_tier.val : ℚ) * (2/10))

/-- One member of a Redis sorted set: `(member, score)`. -/
abbrev ZEntry := String × ℚ

/-- Redis sorted-set order as a boolean total preorder: ascending score,
ties by ascending lexicographic member. -/
def zleb (a b : ZEntry) : Bool :=
  if a.2 < b.2 then true
  else if b.2 < a.2 then false
  else !(strLtb b.1 a.1)

/-- Insert an entry into a list sorted by `zleb`. -/
def zinsert (p : ZEntry) : List ZEntry → List ZEntry
  | [] => [p]
  | q :: rest => if zleb p q then p :: q :: rest else q :: zinsert p rest

/-- Sort a member list into Redis sorted-set order (ascending). -/
def zsort : List ZEntry → List ZEntry
  | [] => []
  | p :: rest => zinsert p (zsort rest)

/-- Embeds `zleb` as a relation, for `List.Sorted`. -/
def zle (a b : ZEntry) : Prop := zleb a b = true

/-- The Redis state owned by the candidate store: the `ev:{event_id}`
hashes as an association list of records, and each `cand:{home_id}`
sorted set as a member list (order canonicalised by `zsort` on reads). -/
structure CandidateStore where
  max_candidates_per_home : ℕ
  recs : List (String × EventCandidate)
  cand : String → List ZEntry

/-- Embeds `redis.exists(f"ev:{event_id}")`. -/
def rec_exists (s : CandidateStore) (event_id : String) : Bool :=
  s.recs.any (fun r => r.1 == event_id)

/-- Embeds `CandidateStore.get_candidate` (candidate_store.py, lines 179-208):
the record stored under `ev:{event_id}`, if any. -/
def get_candidate (s : CandidateStore) (event_id : String) : Option EventCandidate :=
  (s.recs.find? (fun r => r.1 == event_id)).map Prod.snd

/-- Membership of `m` in a sorted set. -/
def zmem (z : List ZEntry) (m : String) : Bool := z.any (fun p => p.1 == m)

/-- Embeds `redis.zadd(key, {m: sc})`: update the member's score if present,
else add the member. -/
def zadd (z : List ZEntry) (m : String) (sc : ℚ) : List ZEntry :=
  if zmem z m then z.map (fun p => if p.1 == m then (m, sc) else p)
  else (m, sc) :: z

/-- Embeds `redis.zrem(key, m)`. -/
def zrem1 (z : List ZEntry) (m : String) : List ZEntry :=
  z.filter (fun p => !(p.1 == m))

/-- Embeds `redis.zrem(key, *ms)`. -/
def zremMany (z : List ZEntry) (ms : List String) : List ZEntry :=
  z.filter (fun p => !(ms.contains p.1))

/-- Embeds `redis.zrange(key, 0, k - 1)`: the `k` least entries in sorted-set
order. -/
def zrangeTake (z : List ZEntry) (k : ℕ) : List ZEntry := (zsort z).take k

/-- Embeds `redis.zrevrange(key, 0, k - 1)`: the `k` greatest entries, greatest
first; ties in score come in descending lexicographic member order. -/
def zrevrangeTake (z : List ZEntry) (k : ℕ) : List ZEntry := (zsort z).reverse.take k

/-- Point update of the `cand:{home_id}` map. -/
def updateHome (f : String → List ZEntry) (home_id : String) (z : List ZEntry) :
    String → List ZEntry :=
  fun h => if h = home_id then z else f h

/-- Embeds `CandidateStore.remove_candidate` (candidate_store.py, lines 228-244):
`zrem` from the home's set and delete the `ev:` record. -/
def remove_candidate (s : CandidateStore) (event_id home_id : String) : CandidateStore :=
  { s with cand := updateHome s.cand home_id (zrem1 (s.cand home_id) event_id),
           recs := s.recs.filter (fun r => !(r.1 == event_id)) }

/-- The members evicted by `_cleanup_old_candidates`: the
`count - cap` lowest-scoring entries (`zrange(key, 0, to_remove - 1)`). -/
def cleanupEvicted (s : CandidateStore) (home_id : String) : List String :=
  (zrangeTake (s.cand home_id)
    ((s.cand home_id).length - s.max_candidates_per_home)).map Prod.fst

/-- Embeds `CandidateStore._cleanup_old_candidates` (candidate_store.py, lines
298-323): when the home's set exceeds the cap, `zrem` the
`count - cap` lowest-scoring members and delete their `ev:` records. -/
def cleanup_old_candidates (s : CandidateStore) (home_id : String) : CandidateStore :=
  if (s.cand home_id).length > s.max_candidates_per_home then
    { s with cand := updateHome s.cand home_id
               (zremMany (s.cand home_id) (cleanupEvicted s home_id)),
             recs := s.recs.filter (fun r => !((cleanupEvicted s home_id).contains r.1)) }
  else s

/-- Embeds `CandidateStore.add_candidate` (candidate_store.py, lines 110-155).
If an `ev:{event_id}` record exists, only the member's score is written
(with a TTL refresh, not modelled); otherwise the record is stored, the
member added at the computed score, the `expire:{epoch}` auxiliary entry
written (not modelled) and the home's set trimmed to the cap. -/
def add_candidate (s : CandidateStore) (c : EventCandidate) (now : ℚ) : CandidateStore :=
  let score := calculate_score c now
  if rec_exists s c.event_id then
    { s with cand := updateHome s.cand c.home_id (zadd (s.cand c.home_id) c.event_id score) }
  else
    cleanup_old_candidates
      { s with recs := (c.event_id, c) :: s.recs,
               cand := updateHome s.cand c.home_id (zadd (s.cand c.home_id) c.event_id score) }
      c.home_id

/-- Embeds `CandidateStore.get_top_candidates` (candidate_store.py, lines
157-177): `zrevrange(cand:{home_id}, 0, limit-1)` with the record of
each returned member fetched (members without a record are skipped). -/
def get_top_candidates (s : CandidateStore) (home_id : String) (limit : ℕ) :
    List EventCandidate :=
  (zrevrangeTake (s.cand home_id) limit).filterMap (fun p => get_candidate s p.1)

/-- Stable descending insertion by a rational key (models Python
`list.sort(key=..., reverse=True)`, which is stable). -/
def pyInsertDesc (key : EventCandidate → ℚ) (x : EventCandidate) :
    List EventCandidate → List EventCandidate
  | [] => [x]
  | y :: rest => if key y ≤ key x then x :: y :: rest else y :: pyInsertDesc key x rest

/-- Stable descending sort by a rational key. -/
def pySortDesc (key : EventCandidate → ℚ) : List EventCandidate → List EventCandidate
  | [] => []
  | x :: rest => pyInsertDesc key x (pySortDesc key rest)

/-- Embeds `CandidateStore.get_candidates_by_tier` (candidate_store.py, lines
246-271).  `homes` is the (arbitrary) enumeration order that
`redis.keys("cand:*")` returns; each home contributes its top `limit`
candidates filtered to the tier, and the union is re-sorted globally by
the recomputed `calculate_score` (descending, stable) and truncated. -/
def get_candidates_by_tier (s : CandidateStore) (homes : List String)
    (tier : ProcessingTier) (limit : ℕ) (now : ℚ) : List EventCandidate :=
  let all := (homes.map (fun h =>
    (get_top_candidates s h limit).filter (fun c => c.processing_tier == tier))).flatten
  (pySortDesc (fun c => calculate_score c now) all).take limit

/-- Baseline candidate used by the concrete counterexamples and
witnesses below. -/
def cA : EventCandidate :=
  { event_id := "a", home_id := "h1", user_id := "u1", timestamp := 0,
    priority := Priority.NORMAL, processing_tier := ProcessingTier.STANDARD,
    image_url := "https://example.com/a.jpg", location := "front_door",
    mode := "guardian" }

/-- Same candidate under event id `b`. -/
def cB : EventCandidate := { cA with event_id := "b" }

/-- Same candidate under event id `x`. -/
def cX : EventCandidate := { cA with event_id := "x" }

/-- The `x` candidate re-submitted under a different home id. -/
def cX2 : EventCandidate := { cX with home_id := "h2" }

/-- The empty store at the default cap. -/
def emptyStore : CandidateStore :=
  { max_candidates_per_home := 2000, recs := [], cand := fun _ => [] }

/-- Distinct member names of length `i + 2` for a cap-sized index. -/
def bigMember (i : ℕ) : String := String.mk (List.replicate (i + 2) 'e')

/-- A 2000-member index (scores 0..1999, all member names distinct and
different from `"x"`). -/
def bigList : List ZEntry := (List.range 2000).map (fun i => (bigMember i, (i : ℚ)))

/-- A store whose home `h1` is exactly at the cap while an `ev:x` record
exists that is not a member of `cand:h1`. -/
def storeAtCap : CandidateStore :=
  { max_candidates_per_home := 2000, recs := [("x", cX)],
    cand := fun h => if h = "h1" then bigList else [] }

/-- A fresh candidate `c` for the small-cap witness store. -/
def cNew : EventCandidate := { cA with event_id := "c" }

/-- A store at a small cap (2) with home `h1` exactly full, for the
amended-cap witness. -/
def smallStore : CandidateStore :=
  { max_candidates_per_home := 2, recs := [("a", cA), ("b", cB)],
    cand := fun h => if h = "h1" then [("a", 1), ("b", 2)] else [] }

/-- A store whose home `h1` holds two candidates with identical priority
scores (a tie), with their records present. -/
def S8 : CandidateStore :=
  { max_candidates_per_home := 2000, recs := [("a", cA), ("b", cB)],
    cand := fun h => if h = "h1" then [("a", 5), ("b", 5)] else [] }

/-! ## Scheduler life-safety preemption (`scheduler.py`)

`schedule_life_safety_event` touches the emergency queue, the
`processing_jobs` set and the candidate store; it never reads or writes
any token bucket.  The buckets are carried in the state to make that
explicit. -/
/-- Embeds `life_safety_indicators` (scheduler.py, lines 468-471). -/
def life_safety_indicators : List String :=
  ["glassbreak", "smoke", "co", "carbon_monoxide",
   "forced_entry", "emergency", "alarm", "break_in"]

/-- Embeds `ProcessingScheduler._is_life_safety_event` (scheduler.py, lines
466-487): explainer substring match on the lowercased text, or a door
location with priority at least CRITICAL, or an emergency/alarm mode. -/
def is_life_safety_event (c : EventCandidate) : Bool :=
  (match c.lite_explainer with
   | some e => life_safety_indicators.any (fun ind => strContains (lowerStr e) ind)
   | none => false) ||
  ((c.location == "front_door" || c.location == "back_door") &&
    decide (Priority.CRITICAL.val ≤ c.priority.val)) ||
  (c.mode == "emergency" || c.mode == "alarm")

/-- The job dict built by `schedule_life_safety_event`. -/
structure LifeSafetyJob where
  session_id : String
  home_id : String
  event_ids : List String
  tier : String
  K : ℕ
  deadline_ms : ℕ
  priority : String
  enqueued_at : ℚ
  bypass_reason : String
deriving DecidableEq

/-- The single-event emergency session descriptor (scheduler.py, lines
436-446). -/
def mk_life_safety_job (c : EventCandidate) (now : ℚ) : LifeSafetyJob :=
  { session_id := "life_safety_" ++ c.event_id, home_id := c.home_id,
    event_ids := [c.event_id], tier := "emergency", K := 12,
    deadline_ms := 2000, priority := "LIFE_SAFETY", enqueued_at := now,
    bypass_reason := "life_safety_event" }

/-- Python `set.add` on the scheduler's `processing_jobs` set. -/
def setAdd (l : List String) (x : String) : List String :=
  if l.contains x then l else x :: l

/-- The scheduler state visible to `schedule_life_safety_event`. -/
structure SchedulerState where
  token_buckets : ProcessingTier → Option TokenBucket
  processing_jobs : List String
  emergency_queue : List LifeSafetyJob
  store : CandidateStore

/-- Embeds `ProcessingScheduler.schedule_life_safety_event` (scheduler.py,
lines 428-464): build the single-event session, `lpush` it on
`deep_processing_emergency`, track the event as processing, and remove
it from the candidate store; no token bucket is consulted. -/
def schedule_life_safety_event (st : SchedulerState) (c : EventCandidate)
    (now : ℚ) : Bool × SchedulerState :=
  if is_life_safety_event c then
    (true,
      { st with
          emergency_queue := mk_life_safety_job c now :: st.emergency_queue,
          processing_jobs := setAdd st.processing_jobs c.event_id,
          store := remove_candidate st.store c.event_id c.home_id })
  else (false, st)

/-- The life-safety condition transcribed literally from the claim (C3):
mode in {emergency, alarm}, or `lite_explainer` contains (verbatim,
case-sensitively) one of the indicator substrings, or location
front_door/back_door with priority CRITICAL. -/
def spec_life_safety_cond (c : EventCandidate) : Bool :=
  (c.mode == "emergency" || c.mode == "alarm") ||
  (match c.lite_explainer with
   | some e => life_safety_indicators.any (fun ind => strContains e ind)
   | none => false) ||
  ((c.location == "front_door" || c.location == "back_door") &&
    (c.priority == Priority.CRITICAL))

/-- A candidate whose explainer is upper-case `ALARM`, satisfying none
of the claim's verbatim conditions. -/
def cALARM : EventCandidate :=
  { cA with lite_processed := true, lite_explainer := some "ALARM",
            location := "garden", mode := "guardian" }

/-- An explicitly life-safety candidate (mode `emergency`). -/
def cEmerg : EventCandidate := { cA with mode := "emergency" }

/-- A scheduler state for the concrete life-safety examples. -/
def stEx : SchedulerState :=
  { token_buckets := default_token_buckets, processing_jobs := [],
    emergency_queue := [], store := emptyStore }

/-! ## Deep worker sessions (`deep_worker_v2.py`)

`_process_session` is embedded with explicit time: `pre` is the elapsed
time (ms) when the loop first checks the deadline, and `dur i` the time
consumed by processing the `i`-th started event.  The outcome of
`_process_session_event` for the `i`-th started event is an oracle
`res i`: `Except.ok` is the dict it returns (it catches its own
errors), `Except.error msg` models an exception escaping the await
(caught by the per-event handler at lines 324-330).  An unhandled
orchestration exception (lines 357-371) is modelled by `exc` in
`run_session`.  `setex` TTLs and wall-clock duration/timestamp fields
are not modelled. -/
/-- One detection of the deep model. -/
structure Detection where
  cls : String
  confidence : ℚ
deriving DecidableEq

/-- The dict returned by `_process_session_event`. -/
structure SessEventOut where
  success : Bool
  detections : List Detection
  confidence : ℚ
  risk_score : ℚ
deriving DecidableEq

/-- One entry of `findings.events_processed`: either the per-event dict,
or the error entry `{event_id, success: False, error}` appended by the
per-event exception handler. -/
inductive ProcEntry where
  | ok (event_id : String) (out : SessEventOut)
  | err (event_id : String) (msg : String)
deriving DecidableEq

/-- The detection classes recorded as threat indicators. -/
def threat_classes : List String := ["person", "vehicle", "weapon", "package"]

/-- Threat-indicator records extracted from one event's detections. -/
def extract_threats (event_id : String) (ds : List Detection) :
    List (String × ℚ × String) :=
  (ds.filter (fun d => threat_classes.contains d.cls)).map
    (fun d => (d.cls, d.confidence, event_id))

/-- The `ProcessingSession` dataclass (`enqueued_at` is wall clock and
not needed here). -/
structure ProcessingSession where
  session_id : String
  home_id : String
  event_ids : List String
  tier : String
  K : ℕ
  deadline_ms : ℕ
  priority : String
deriving DecidableEq

/-- Accumulator of the per-event loop in `_process_session`. -/
structure LoopAcc where
  elapsed : ℚ
  entries : List ProcEntry
  total_risk : ℚ
  threats : List (String × ℚ × String)

/-- The per-event loop of `_process_session` (lines 300-330): stop as
soon as the elapsed time exceeds 80% of the deadline, otherwise append
the event's entry, accumulate its risk (0 for the error entry) and its
threat indicators. -/
def session_loop (deadline_ms : ℕ) (dur : ℕ → ℚ)
    (res : ℕ → Except String SessEventOut) :
    List String → ℕ → LoopAcc → LoopAcc
  | [], _, acc => acc
  | eid :: rest, i, acc =>
    if acc.elapsed > (deadline_ms : ℚ) * (8/10) then acc
    else
      match res i with
      | .ok out =>
        session_loop deadline_ms dur res rest (i + 1)
          { elapsed := acc.elapsed + dur i,
            entries := acc.entries ++ [.ok eid out],
            total_risk := acc.total_risk + out.risk_score,
            threats := acc.threats ++ extract_threats eid out.detections }
      | .error msg =>
        session_loop deadline_ms dur res rest (i + 1)
          { elapsed := acc.elapsed + dur i,
            entries := acc.entries ++ [.err eid msg],
            total_risk := acc.total_risk,
            threats := acc.threats }

/-- Count of entries with `success: True`, for the summary line. -/
def successful_count (entries : List ProcEntry) : ℕ :=
  (entries.filter (fun e => match e with
    | .ok _ out => out.success
    | .err _ _ => false)).length

/-- Embeds `_generate_session_summary` (lines 482-502).  The joined list of
threat types iterates a Python `set`, whose order is process-dependent;
the type list is therefore left out of the rendered string. -/
def generate_session_summary (session_id : String) (entries : List ProcEntry)
    (threats : List (String × ℚ × String)) (risk : ℚ) : String :=
  let base := "Processed " ++ toString (successful_count entries) ++ "/" ++
    toString entries.length ++ " events from session " ++ session_id
  let base2 := if threats.length > 0 then
    base ++ ", detected " ++ toString threats.length ++ " threats" else base
  base2 ++ (if risk > 7/10 then " (HIGH RISK)"
            else if risk > 4/10 then " (MODERATE RISK)" else " (LOW RISK)")

/-- The `findings` tree of a session result. -/
structure SessionFindings where
  events_processed : List ProcEntry
  summary : String
  risk_score : ℚ
  threat_indicators : List (String × ℚ × String)
  total_events : ℕ
  deadline_ms : ℕ
  tier : String
deriving DecidableEq

/-- The `SessionResult` record (`processing_duration_ms` and `timestamp`
are wall clock and not modelled; the failure path stores `findings = {}`,
modelled as `none`). -/
structure SessionResultModel where
  session_id : String
  success : Bool
  findings : Option SessionFindings
  error_message : Option String
deriving DecidableEq

/-- Embeds `DeepWorkerV2._process_session` (deep_worker_v2.py, lines 273-371),
normal (exception-free) orchestration: the result is always
`success = true` with no error message, however many events were
processed; the session risk is `total_risk / max(1, processed)`. -/
def process_session (s : ProcessingSession) (pre : ℚ) (dur : ℕ → ℚ)
    (res : ℕ → Except String SessEventOut) : SessionResultModel :=
  let acc := session_loop s.deadline_ms dur res (s.event_ids.take s.K) 0
    { elapsed := pre, entries := [], total_risk := 0, threats := [] }
  let risk := acc.total_risk / ((max 1 acc.entries.length : ℕ) : ℚ)
  { session_id := s.session_id, success := true,
    findings := some
      { events_processed := acc.entries,
        summary := generate_session_summary s.session_id acc.entries acc.threats risk,
        risk_score := risk,
        threat_indicators := acc.threats,
        total_events := (s.event_ids.take s.K).length,
        deadline_ms := s.deadline_ms,
        tier := s.tier },
    error_message := none }

/-- One `scheduler_completions` record. -/
structure CompletionRecord where
  event_id : String
  worker_id : String
  success : Bool
  completed_at : ℚ
deriving DecidableEq

/-- One `digest_queue` record of the session path. -/
structure DigestRecord where
  session_id : String
  home_id : String
  tier : String
  findings : Option SessionFindings
  completed_at : ℚ
deriving DecidableEq

/-- The worker-visible Redis lists and result keys. -/
structure WorkerState where
  session_results : List (String × SessionResultModel)
  scheduler_completions : List CompletionRecord
  digest_queue : List DigestRecord

/-- Embeds `DeepWorkerV2._notify_scheduler_completion` (lines 878-894). -/
def notify_scheduler_completion (st : WorkerState) (worker_id event_id : String)
    (success : Bool) (now : ℚ) : WorkerState :=
  { st with scheduler_completions :=
      { event_id := event_id, worker_id := worker_id, success := success,
        completed_at := now } :: st.scheduler_completions }

/-- Embeds `DeepWorkerV2._handle_session_success` (lines 504-534): store the
result (24 h TTL not modelled), push one completion per constituent
event id, then push the digest record. -/
def handle_session_success (st : WorkerState) (worker_id : String)
    (s : ProcessingSession) (r : SessionResultModel) (now : ℚ) : WorkerState :=
  let st1 := { st with session_results :=
    ("session_result:" ++ s.session_id, r) :: st.session_results }
  let st2 := s.event_ids.foldl
    (fun acc eid => notify_scheduler_completion acc worker_id eid true now) st1
  { st2 with digest_queue :=
      { session_id := s.session_id, home_id := s.home_id, tier := s.tier,
        findings := r.findings, completed_at := now } :: st2.digest_queue }

/-- Embeds `DeepWorkerV2._handle_session_failure` (lines 536-554): store the
failure result and push one completion per constituent event id. -/
def handle_session_failure (st : WorkerState) (worker_id : String)
    (s : ProcessingSession) (r : SessionResultModel) (now : ℚ) : WorkerState :=
  let st1 := { st with session_results :=
    ("session_result:" ++ s.session_id, r) :: st.session_results }
  s.event_ids.foldl
    (fun acc eid => notify_scheduler_completion acc worker_id eid false now) st1

/-- Embeds `_process_session` including its outer try/except: `exc = some msg`
models an unhandled orchestration exception with text `msg`, which
produces a `success = false` result handled by
`_handle_session_failure`. -/
def run_session (st : WorkerState) (worker_id : String) (s : ProcessingSession)
    (pre : ℚ) (dur : ℕ → ℚ) (res : ℕ → Except String SessEventOut)
    (exc : Option String) (now : ℚ) : WorkerState × SessionResultModel :=
  match exc with
  | none =>
    let r := process_session s pre dur res
    (handle_session_success st worker_id s r now, r)
  | some msg =>
    let r : SessionResultModel :=
      { session_id := s.session_id, success := false, findings := none,
        error_message := some msg }
    (handle_session_failure st worker_id s r now, r)

/-- Partial sums of per-event durations: `dur_sum dur i n` is the time
consumed by events `i, i+1, ..., i+n-1`. -/
def dur_sum (dur : ℕ → ℚ) (i : ℕ) : ℕ → ℚ
  | 0 => 0
  | n + 1 => dur_sum dur i n + dur (i + n)

/-- Zero per-event processing time, for the concrete examples. -/
def dur0 : ℕ → ℚ := fun _ => 0

/-- A fixed successful per-event outcome, for the concrete examples. -/
def res0 : ℕ → Except String SessEventOut :=
  fun _ => Except.ok { success := true, detections := [], confidence := 3/4,
                       risk_score := 1/2 }

/-- A one-event session with a 1000 ms deadline. -/
def sessD : ProcessingSession :=
  { session_id := "s1", home_id := "h1", event_ids := ["e1"], tier := "standard",
    K := 1, deadline_ms := 1000, priority := "NORMAL" }

/-- The same session with `K = 0`. -/
def sessK0 : ProcessingSession := { sessD with K := 0 }

/-- A two-event session, for the completion witness. -/
def sess9 : ProcessingSession :=
  { session_id := "s9", home_id := "h1", event_ids := ["e1", "e2"],
    tier := "premium", K := 2, deadline_ms := 5000, priority := "NORMAL" }

/-- The empty worker state. -/
def wst0 : WorkerState :=
  { session_results := [], scheduler_completions := [], digest_queue := [] }

/-! ## Theorems -/

/-! ### C1, C2 -/
/-- C1: the claim states that `_calculate_exact_score` is deterministic
across processes for equal `(channels, image_name, mode)`.  It is not:
the score depends on the salted `hash(image_name)`, which differs
between processes.  With channels `{vehicle, pet}` and mode `guardian`,
a process where the name hashes to 26 scores 0.28 (band `low`) while a
process where it hashes to 0 scores 0.4025 (band `medium`). -/
theorem lite_score_is_process_dependent :
    calculate_exact_score ⟨false, true, true, false⟩ 26 "guardian" ≠
      calculate_exact_score ⟨false, true, true, false⟩ 0 "guardian" ∧
    (calculate_exact_score ⟨false, true, true, false⟩ 26 "guardian").score = 28/100 ∧
    (calculate_exact_score ⟨false, true, true, false⟩ 26 "guardian").threshold_met = "low" ∧
    (calculate_exact_score ⟨false, true, true, false⟩ 0 "guardian").score = 4025/10000 ∧
    (calculate_exact_score ⟨false, true, true, false⟩ 0 "guardian").threshold_met = "medium" := by
  have h26 : (calculate_exact_score ⟨false, true, true, false⟩ 26 "guardian").score = 28/100 := by
    simp +decide only [calculate_exact_score, clamp01, mock_distance, is_night, mode_factor]
    norm_num [max_def, min_def]
  have h0 : (calculate_exact_score ⟨false, true, true, false⟩ 0 "guardian").score = 4025/10000 := by
    simp +decide only [calculate_exact_score, clamp01, mock_distance, is_night, mode_factor]
    norm_num [max_def, min_def]
  refine ⟨fun h => ?_, h26, ?_, h0, ?_⟩
  · rw [congrArg ScoreResult.score h, h0] at h26
    norm_num at h26
  · simp +decide only [calculate_exact_score, clamp01, mock_distance, is_night, mode_factor,
      mode_thresholds]
    norm_num [max_def, min_def]
  · simp +decide only [calculate_exact_score, clamp01, mock_distance, is_night, mode_factor,
      mode_thresholds]
    norm_num [max_def, min_def]

/-- C2: for every channels mapping, every process hash value and every
mode among stealth/guardian/perimeter, `_calculate_exact_score` returns
exactly the claimed clamped product formula (with the code's mocked
perimeter distance and night flag as the distance/night inputs) and the
claimed three-band classification with the claimed per-mode cutoffs. -/
theorem lite_score_matches_spec_formula (channels : LiteChannels)
    (imageNameHash : ℤ) (mode : String)
    (hm : mode = "stealth" ∨ mode = "guardian" ∨ mode = "perimeter") :
    (calculate_exact_score channels imageNameHash mode).score =
      spec_lite_score channels (mock_distance imageNameHash) (is_night imageNameHash) mode ∧
    (calculate_exact_score channels imageNameHash mode).threshold_met =
      spec_band (spec_lite_score channels (mock_distance imageNameHash)
        (is_night imageNameHash) mode) (spec_cutoffs mode).1 (spec_cutoffs mode).2 := by
  rcases hm with rfl | rfl | rfl <;>
    simp [calculate_exact_score, spec_lite_score, spec_band, spec_cutoffs,
      mode_thresholds, mode_factor]

/-- Witness for C2 at channels `{person}`, hash 3, mode `stealth`. -/
theorem lite_score_matches_spec_formula_witness :
    (calculate_exact_score ⟨true, false, false, false⟩ 3 "stealth").score =
      spec_lite_score ⟨true, false, false, false⟩ (mock_distance 3) (is_night 3) "stealth" ∧
    (calculate_exact_score ⟨true, false, false, false⟩ 3 "stealth").threshold_met =
      spec_band (spec_lite_score ⟨true, false, false, false⟩ (mock_distance 3)
        (is_night 3) "stealth") (spec_cutoffs "stealth").1 (spec_cutoffs "stealth").2 :=
  lite_score_matches_spec_formula ⟨true, false, false, false⟩ 3 "stealth" (Or.inl rfl)

/-! ### C5 -/
/-- C5 counterexample: the claim says one throttle sets every bucket's
capacity to `max(min_best_effort_k, ⌊capacity * 0.6⌋)` - for the default
STANDARD bucket (capacity 2) that would be 5 - but the code applies the
new capacity only when it is strictly smaller, so STANDARD stays at 2. -/
theorem autothrottle_standard_stays_at_two :
    (apply_autothrottle default_token_buckets ProcessingTier.STANDARD).map
        TokenBucket.capacity = some 2 ∧
    2 ≠ max min_best_effort_k (floorSixTenths 2) := by
  constructor
  · rfl
  · decide

/-- C5 amended: one application of `_apply_autothrottle` replaces a
bucket's capacity by `max(min_best_effort_k, ⌊capacity * 0.6⌋)` and
clamps its tokens to the new capacity exactly when that value is
strictly below the current capacity, and otherwise leaves the bucket
unchanged; consequently, after any number of throttles no capacity
drops below `min(original capacity, min_best_effort_k)`; with the
default capacities one throttle yields STANDARD = 2 (unchanged),
PREMIUM = 5, ENTERPRISE = 19. -/
theorem autothrottle_amended
    (b : TokenBucket) (n : ℕ)
    (hlt : max min_best_effort_k (floorSixTenths b.capacity) < b.capacity) :
    (apply_autothrottle_bucket b).capacity =
        max min_best_effort_k (floorSixTenths b.capacity) ∧
    (apply_autothrottle_bucket b).tokens =
        min b.tokens ((apply_autothrottle_bucket b).capacity : ℚ) ∧
    (∀ b' : TokenBucket, ¬ max min_best_effort_k (floorSixTenths b'.capacity) < b'.capacity →
        apply_autothrottle_bucket b' = b') ∧
    min b.capacity min_best_effort_k ≤ (apply_autothrottle_bucket^[n] b).capacity ∧
    (apply_autothrottle default_token_buckets ProcessingTier.STANDARD).map
        TokenBucket.capacity = some 2 ∧
    (apply_autothrottle default_token_buckets ProcessingTier.PREMIUM).map
        TokenBucket.capacity = some 5 ∧
    (apply_autothrottle default_token_buckets ProcessingTier.ENTERPRISE).map
        TokenBucket.capacity = some 19 := by
  have hstep : ∀ b' : TokenBucket,
      min b'.capacity min_best_effort_k ≤ (apply_autothrottle_bucket b').capacity := by
    intro b'
    unfold apply_autothrottle_bucket
    dsimp only
    split
    · exact le_trans (min_le_right _ _) (le_max_left _ _)
    · exact min_le_left _ _
  have hiter : ∀ (m : ℕ) (b' : TokenBucket),
      min b'.capacity min_best_effort_k ≤ (apply_autothrottle_bucket^[m] b').capacity := by
    intro m
    induction m with
    | zero => intro b'; exact min_le_left _ _
    | succ k ih =>
      intro b'
      rw [Function.iterate_succ_apply]
      exact le_trans (le_min (hstep b') (min_le_right _ _)) (ih (apply_autothrottle_bucket b'))
  refine ⟨?_, ?_, ?_, hiter n b, rfl, rfl, rfl⟩
  · simp [apply_autothrottle_bucket, hlt]
  · simp [apply_autothrottle_bucket, hlt]
  · intro b' h
    simp [apply_autothrottle_bucket, h]

/-- Witness for C5 at the default PREMIUM bucket (capacity 7): the
throttle condition holds and the capacity drops to `max(5, ⌊7*0.6⌋) = 5`. -/
theorem autothrottle_amended_witness :
    max min_best_effort_k (floorSixTenths 7) < 7 ∧
    (apply_autothrottle_bucket ⟨7, 7, 7/60⟩).capacity =
      max min_best_effort_k (floorSixTenths 7) :=
  ⟨by decide, (autothrottle_amended ⟨7, 7, 7/60⟩ 1 (by decide)).1⟩

theorem lexLtb_irrefl (a : List Char) : lexLtb a a = false := by
  induction a with
  | nil => rfl
  | cons c rest ih => simp [lexLtb, ih]

theorem lexLtb_asymm {a b : List Char} (h : lexLtb a b = true) : lexLtb b a = false := by
  induction a generalizing b with
  | nil =>
    cases b with
    | nil => simp [lexLtb] at h
    | cons d bs => simp [lexLtb]
  | cons c as ih =>
    cases b with
    | nil => simp [lexLtb] at h
    | cons d bs =>
      by_cases hcd : c < d
      · simp [lexLtb, hcd, asymm hcd, ne_of_gt hcd]
      · by_cases hdc : d < c
        · simp [lexLtb, hcd, hdc] at h
        · have hne : ¬ d < c := hdc
          simp [lexLtb, hcd, hdc] at h ⊢
          exact ih h

theorem lexLtb_trans {a b c : List Char} (hab : lexLtb a b = true)
    (hbc : lexLtb b c = true) : lexLtb a c = true := by
  induction a generalizing b c with
  | nil =>
    cases c with
    | nil =>
      cases b with
      | nil => simp [lexLtb] at hab
      | cons d bs => simp [lexLtb] at hbc
    | cons e cs => simp [lexLtb]
  | cons x as ih =>
    cases b with
    | nil => simp [lexLtb] at hab
    | cons y bs =>
      cases c with
      | nil => simp [lexLtb] at hbc
      | cons z cs =>
        by_cases hxy : x < y <;> by_cases hyz : y < z
        · have hxz : x < z := lt_trans hxy hyz
          simp [lexLtb, hxz]
        · by_cases hzy : z < y
          · simp [lexLtb, hyz, hzy] at hbc
          · have hyzeq : y = z := le_antisymm (not_lt.mp hzy) (not_lt.mp hyz)
            subst hyzeq
            simp [lexLtb, hxy]
        · by_cases hyx : y < x
          · simp [lexLtb, hxy, hyx] at hab
          · have hxyeq : x = y := le_antisymm (not_lt.mp hyx) (not_lt.mp hxy)
            subst hxyeq
            simp [lexLtb, hyz]
        · by_cases hyx : y < x
          · simp [lexLtb, hxy, hyx] at hab
          · by_cases hzy : z < y
            · simp [lexLtb, hyz, hzy] at hbc
            · have hxyeq : x = y := le_antisymm (not_lt.mp hyx) (not_lt.mp hxy)
              have hyzeq : y = z := le_antisymm (not_lt.mp hzy) (not_lt.mp hyz)
              subst hxyeq; subst hyzeq
              simp [lexLtb, lt_irrefl] at hab hbc ⊢
              exact ih hab hbc

theorem lexLtb_eq_of_not {a b : List Char} (hab : lexLtb a b = false)
    (hba : lexLtb b a = false) : a = b := by
  induction a generalizing b with
  | nil =>
    cases b with
    | nil => rfl
    | cons d bs => simp [lexLtb] at hab
  | cons c as ih =>
    cases b with
    | nil => simp [lexLtb] at hba
    | cons d bs =>
      by_cases hcd : c < d
      · simp [lexLtb, hcd] at hab
      · by_cases hdc : d < c
        · simp [lexLtb, hdc] at hba
        · have hcdeq : c = d := le_antisymm (not_lt.mp hdc) (not_lt.mp hcd)
          subst hcdeq
          simp [lexLtb, lt_irrefl] at hab hba
          exact congrArg (c :: ·) (ih hab hba)

theorem strLtb_eq_of_not {a b : String} (hab : strLtb a b = false)
    (hba : strLtb b a = false) : a = b := by
  cases a with
  | mk da =>
    cases b with
    | mk db => exact congrArg String.mk (lexLtb_eq_of_not hab hba)

theorem zleb_refl (a : ZEntry) : zleb a a = true := by
  simp [zleb, strLtb, lexLtb_irrefl]

theorem zleb_total (a b : ZEntry) : zleb a b = true ∨ zleb b a = true := by
  unfold zleb
  by_cases h1 : a.2 < b.2
  · left; simp [h1]
  · by_cases h2 : b.2 < a.2
    · right; simp [h2, asymm h2]
    · by_cases h3 : strLtb b.1 a.1
      · right
        have : strLtb a.1 b.1 = false := lexLtb_asymm h3
        simp [h1, h2, this]
      · left
        simp [h1, h2, h3]

theorem zleb_trans {a b c : ZEntry} (hab : zleb a b = true)
    (hbc : zleb b c = true) : zleb a c = true := by
  unfold zleb at *
  by_cases h1 : a.2 < b.2 <;> by_cases h2 : b.2 < c.2
  · simp [lt_trans h1 h2]
  · by_cases h2' : c.2 < b.2
    · simp [h2, h2'] at hbc
    · have : b.2 = c.2 := le_antisymm (not_lt.mp h2') (not_lt.mp h2)
      simp [this ▸ h1]
  · by_cases h1' : b.2 < a.2
    · simp [h1, h1'] at hab
    · have : a.2 = b.2 := le_antisymm (not_lt.mp h1') (not_lt.mp h1)
      simp [this ▸ h2]
  · by_cases h1' : b.2 < a.2
    · simp [h1, h1'] at hab
    · by_cases h2' : c.2 < b.2
      · simp [h2, h2'] at hbc
      · have e1 : a.2 = b.2 := le_antisymm (not_lt.mp h1') (not_lt.mp h1)
        have e2 : b.2 = c.2 := le_antisymm (not_lt.mp h2') (not_lt.mp h2)
        simp [h1, h1', h2, h2'] at hab hbc
        have hac2 : ¬ a.2 < c.2 := by rw [e1, e2]; exact lt_irrefl _
        have hca2 : ¬ c.2 < a.2 := by rw [e1, e2]; exact lt_irrefl _
        simp [hac2, hca2]
        cases hbc' : strLtb b.1 c.1 with
        | true =>
          cases hca : strLtb c.1 a.1 with
          | false => rfl
          | true =>
            have hba : strLtb b.1 a.1 = true := lexLtb_trans hbc' hca
            rw [hab] at hba
            exact hba.symm
        | false =>
          have hbceq : b.1 = c.1 := strLtb_eq_of_not hbc' hbc
          rw [← hbceq]
          exact hab

theorem zinsert_perm (p : ZEntry) (l : List ZEntry) :
    (zinsert p l).Perm (p :: l) := by
  induction l with
  | nil => simp [zinsert]
  | cons q rest ih =>
    unfold zinsert
    split
    · exact List.Perm.refl _
    · exact (List.Perm.cons q ih).trans (List.Perm.swap p q rest)

theorem zsort_perm (l : List ZEntry) : (zsort l).Perm l := by
  induction l with
  | nil => simp [zsort]
  | cons p rest ih =>
    exact (zinsert_perm p (zsort rest)).trans (List.Perm.cons p ih)

theorem zinsert_sorted {l : List ZEntry} (p : ZEntry) (h : List.Sorted zle l) :
    List.Sorted zle (zinsert p l) := by
  induction l with
  | nil => simp [zinsert]
  | cons q rest ih =>
    rw [List.sorted_cons] at h
    unfold zinsert
    split
    · rename_i hpq
      rw [List.sorted_cons]
      constructor
      · intro y hy
        rcases List.mem_cons.mp hy with rfl | hy'
        · exact hpq
        · exact zleb_trans hpq (h.1 y hy')
      · rw [List.sorted_cons]
        exact h
    · rename_i hpq
      have hqp : zleb q p = true := by
        rcases zleb_total p q with h' | h'
        · exact absurd h' hpq
        · exact h'
      rw [List.sorted_cons]
      constructor
      · intro y hy
        have : y ∈ p :: rest := (zinsert_perm p rest).mem_iff.mp hy
        rcases List.mem_cons.mp this with rfl | hy'
        · exact hqp
        · exact h.1 y hy'
      · exact ih h.2

theorem zsort_sorted (l : List ZEntry) : List.Sorted zle (zsort l) := by
  induction l with
  | nil => simp [zsort]
  | cons p rest ih => exact zinsert_sorted p ih

theorem zsort_length (l : List ZEntry) : (zsort l).length = l.length :=
  (zsort_perm l).length_eq

theorem zsort_mem {x : ZEntry} {l : List ZEntry} : x ∈ zsort l ↔ x ∈ l :=
  (zsort_perm l).mem_iff

theorem zsort_head_min {l : List ZEntry} {m0 : ZEntry} {rest : List ZEntry}
    (h : zsort l = m0 :: rest) : ∀ p ∈ l, zle m0 p := by
  intro p hp
  have hmem : p ∈ m0 :: rest := h ▸ zsort_mem.mpr hp
  have hs : List.Sorted zle (m0 :: rest) := h ▸ zsort_sorted l
  rcases List.mem_cons.mp hmem with rfl | hp'
  · exact zleb_refl p
  · exact (List.sorted_cons.mp hs).1 p hp'

theorem zmem_false_iff {z : List ZEntry} {m : String} :
    zmem z m = false ↔ ∀ p ∈ z, p.1 ≠ m := by
  simp [zmem, List.any_eq_false]

theorem zadd_length_of_mem {z : List ZEntry} {m : String} (sc : ℚ)
    (h : zmem z m = true) : (zadd z m sc).length = z.length := by
  simp [zadd, h]

theorem zadd_of_not_mem {z : List ZEntry} {m : String} (sc : ℚ)
    (h : zmem z m = false) : zadd z m sc = (m, sc) :: z := by
  simp [zadd, h]

theorem zle_score {a b : ZEntry} (h : zleb a b = true) : a.2 ≤ b.2 := by
  unfold zleb at h
  by_cases h1 : a.2 < b.2
  · exact le_of_lt h1
  · by_cases h2 : b.2 < a.2
    · simp [h1, h2] at h
    · exact not_lt.mp h2

theorem find?_key_filter {α : Type} (l : List (String × α)) (k k' : String)
    (hkk : k ≠ k') :
    (l.filter (fun r => !(r.1 == k'))).find? (fun r => r.1 == k) =
      l.find? (fun r => r.1 == k) := by
  have hk'k : (k' == k) = false := by
    rw [beq_eq_false_iff_ne]
    exact fun h => hkk h.symm
  induction l with
  | nil => rfl
  | cons x rest ih =>
    by_cases hx : x.1 = k'
    · simp [List.filter_cons, hx, List.find?_cons, hk'k, ih]
    · by_cases hxk : x.1 = k
      · simp [List.filter_cons, hx, List.find?_cons, hxk, Ne.symm hkk, hkk]
      · simp [List.filter_cons, hx, List.find?_cons, hxk, ih]

theorem zremMany_take_length (z : List ZEntry) (k : ℕ)
    (hnodup : (z.map Prod.fst).Nodup) :
    (zremMany z (((zsort z).take k).map Prod.fst)).length = z.length - k := by
  have hnodups : ((zsort z).map Prod.fst).Nodup :=
    (List.Perm.nodup_iff (List.Perm.map Prod.fst (zsort_perm z))).mpr hnodup
  have hperm : (zremMany z (((zsort z).take k).map Prod.fst)).Perm
      ((zsort z).filter (fun p => !((((zsort z).take k).map Prod.fst).contains p.1))) :=
    List.Perm.filter _ (zsort_perm z).symm
  rw [hperm.length_eq]
  have hsplit : (zsort z).filter
        (fun p => !((((zsort z).take k).map Prod.fst).contains p.1)) =
      ((zsort z).take k).filter
        (fun p => !((((zsort z).take k).map Prod.fst).contains p.1)) ++
      ((zsort z).drop k).filter
        (fun p => !((((zsort z).take k).map Prod.fst).contains p.1)) := by
    rw [← List.filter_append, List.take_append_drop]
  rw [hsplit]
  have hA : ((zsort z).take k).filter
      (fun p => !((((zsort z).take k).map Prod.fst).contains p.1)) = [] := by
    rw [List.filter_eq_nil_iff]
    intro p hp
    have hmem : p.1 ∈ ((zsort z).take k).map Prod.fst := List.mem_map_of_mem Prod.fst hp
    have hc : (((zsort z).take k).map Prod.fst).contains p.1 = true := by
      rw [List.contains_eq_any_beq, List.any_eq_true]
      exact ⟨p.1, hmem, by simp⟩
    simp only [hc]
    simp
  have hB : ((zsort z).drop k).filter
      (fun p => !((((zsort z).take k).map Prod.fst).contains p.1)) = (zsort z).drop k := by
    rw [List.filter_eq_self]
    intro p hp
    have hmapsplit : ((zsort z).take k).map Prod.fst ++ ((zsort z).drop k).map Prod.fst =
        (zsort z).map Prod.fst := by
      rw [← List.map_append, List.take_append_drop]
    have hdisj : (((zsort z).take k).map Prod.fst).Disjoint
        (((zsort z).drop k).map Prod.fst) :=
      (List.nodup_append.mp (hmapsplit ▸ hnodups)).2.2
    have hpd : p.1 ∈ ((zsort z).drop k).map Prod.fst := List.mem_map_of_mem Prod.fst hp
    have hc : (((zsort z).take k).map Prod.fst).contains p.1 = false := by
      rw [← Bool.not_eq_true, List.contains_eq_any_beq, List.any_eq_true]
      rintro ⟨m, hm, hbeq⟩
      rw [beq_iff_eq] at hbeq
      exact hdisj (hbeq ▸ hm) hpd
    simp only [hc]
    simp
  rw [hA, hB]
  simp [zsort_length]

theorem cleanup_length (s : CandidateStore) (home : String)
    (hnodup : ((s.cand home).map Prod.fst).Nodup)
    (hgt : (s.cand home).length > s.max_candidates_per_home) :
    ((cleanup_old_candidates s home).cand home).length = s.max_candidates_per_home := by
  unfold cleanup_old_candidates
  rw [if_pos hgt]
  simp only [updateHome, if_pos rfl, if_true, eq_self_iff_true]
  unfold cleanupEvicted zrangeTake
  rw [zremMany_take_length _ _ hnodup]
  omega

theorem bigMember_ne_x (i : ℕ) : bigMember i ≠ "x" := by
  intro h
  have h1 : ("x" : String).data.length = 1 := by decide
  have h2 : (bigMember i).data.length = i + 2 := by simp [bigMember]
  rw [h, h1] at h2
  omega

theorem bigList_not_mem_x : zmem bigList "x" = false := by
  rw [zmem, List.any_eq_false]
  intro p hp
  simp only [bigList, List.mem_map, List.mem_range] at hp
  obtain ⟨i, hi, heq⟩ := hp
  rw [← heq]
  simpa using bigMember_ne_x i

/-! ### C6 -/
/-- C6 counterexample: the claim says a second `add_candidate` for an
event id that already has a record leaves the size of every home index
unchanged.  Adding event `x` under home `h1` and then re-adding the same
event id under home `h2` takes the `exists` branch, whose `zadd` inserts
a brand-new member into `cand:h2`: that index grows from 0 to 1. -/
theorem add_candidate_cross_home_counterexample :
    rec_exists (add_candidate emptyStore cX 0) cX2.event_id = true ∧
    ((add_candidate emptyStore cX 0).cand "h2").length = 0 ∧
    ((add_candidate (add_candidate emptyStore cX 0) cX2 0).cand "h2").length = 1 := by
  refine ⟨rfl, rfl, rfl⟩

/-- C6 amended: when `add_candidate` is called for a candidate whose
event id already has an `ev:` record, the event records are left exactly
as they were (same count, no field modified) and the only index written
is the candidate's home index, which receives a `zadd` of the new
priority score; whenever the event id is already a member of that home's
index - as it is when the candidate is re-added for the home it was
stored under - the size of every home index is unchanged. -/
theorem add_candidate_existing_updates_score_only
    (s : CandidateStore) (c : EventCandidate) (now : ℚ)
    (hex : rec_exists s c.event_id = true) :
    (add_candidate s c now).recs = s.recs ∧
    (∀ h, h ≠ c.home_id → (add_candidate s c now).cand h = s.cand h) ∧
    (add_candidate s c now).cand c.home_id =
      zadd (s.cand c.home_id) c.event_id (calculate_score c now) ∧
    (zmem (s.cand c.home_id) c.event_id = true →
      ((add_candidate s c now).cand c.home_id).length = (s.cand c.home_id).length) := by
  have hadd : add_candidate s c now =
      { s with cand :=
          (updateHome s.cand c.home_id (zadd (s.cand c.home_id) c.event_id (calculate_score c now))) } := by
    simp [add_candidate, hex]
  rw [hadd]
  refine ⟨rfl, ?_, ?_, ?_⟩
  · intro h hne
    simp [updateHome, hne]
  · simp [updateHome]
  · intro hmem
    simp [updateHome, zadd_length_of_mem _ hmem]

/-- Witness for C6 amended: re-adding `x` for its own home `h1` keeps the
records and the index size. -/
theorem add_candidate_existing_updates_score_only_witness :
    rec_exists (add_candidate emptyStore cX 0) cX.event_id = true ∧
    (add_candidate (add_candidate emptyStore cX 0) cX 0).recs =
      (add_candidate emptyStore cX 0).recs ∧
    ((add_candidate (add_candidate emptyStore cX 0) cX 0).cand "h1").length =
      ((add_candidate emptyStore cX 0).cand "h1").length :=
  ⟨rfl, (add_candidate_existing_updates_score_only (add_candidate emptyStore cX 0) cX 0 rfl).1,
   (add_candidate_existing_updates_score_only (add_candidate emptyStore cX 0) cX 0 rfl).2.2.2 rfl⟩

theorem add_candidate_exists_eq (s : CandidateStore) (c : EventCandidate) (now : ℚ)
    (hex : rec_exists s c.event_id = true) :
    add_candidate s c now =
      { s with cand :=
          (updateHome s.cand c.home_id (zadd (s.cand c.home_id) c.event_id (calculate_score c now))) } := by
  simp [add_candidate, hex]

theorem add_candidate_fresh_eq (s : CandidateStore) (c : EventCandidate) (now : ℚ)
    (hfresh : rec_exists s c.event_id = false) :
    add_candidate s c now =
      cleanup_old_candidates
        { s with recs := (c.event_id, c) :: s.recs,
                 cand :=
            (updateHome s.cand c.home_id (zadd (s.cand c.home_id) c.event_id (calculate_score c now))) }
        c.home_id := by
  simp [add_candidate, hfresh]

theorem contains_singleton (m a : String) : ([m].contains a) = (a == m) := by
  by_cases h : a = m <;> simp [List.contains, h]

theorem filter_not_contains_singleton {α : Type} (l : List (String × α)) (m : String) :
    l.filter (fun r => !([m].contains r.1)) = l.filter (fun r => !(r.1 == m)) := by
  apply List.filter_congr
  intro p hp
  rw [contains_singleton]

/-! ### C7 -/
set_option maxRecDepth 40000 in
/-- C7 counterexample: the claim says every home index holds at most
2000 entries after every `add_candidate` call.  In the `exists` branch
no trimming happens, so adding an event whose record exists but which is
not yet a member of the target home's index pushes that index from the
2000 cap to 2001. -/
theorem add_candidate_cap_overflow_counterexample :
    storeAtCap.max_candidates_per_home = 2000 ∧
    (storeAtCap.cand "h1").length = 2000 ∧
    rec_exists storeAtCap cX.event_id = true ∧
    ((add_candidate storeAtCap cX 0).cand "h1").length = 2001 := by
  refine ⟨rfl, ?_, rfl, ?_⟩
  · show bigList.length = 2000
    simp only [bigList, List.length_map, List.length_range]
  · have h1 := add_candidate_exists_eq storeAtCap cX 0 rfl
    show ((add_candidate storeAtCap cX 0).cand cX.home_id).length = 2001
    rw [h1]
    simp only [updateHome, if_pos rfl, if_true, eq_self_iff_true]
    show (zadd bigList "x" (calculate_score cX 0)).length = 2001
    rw [zadd_of_not_mem _ bigList_not_mem_x]
    simp only [List.length_cons, bigList, List.length_map, List.length_range]

/-- C7 amended: when `add_candidate` stores a new event (no existing
`ev:` record, event id not yet a member, member names distinct), the
candidate's own home index ends at or below the cap
(`max_candidates_per_home`, default 2000) whenever it started at or
below it, and every other home's index is unchanged; when that home is
exactly at the cap and the new event's score is strictly above the
current minimum, exactly one lowest-scoring entry is removed from the
index and its event record deleted, while the new event's record is
stored and all other entries and records remain.  (The `exists` branch
performs no trimming, as the counterexample shows.) -/
theorem add_candidate_cap_amended
    (s : CandidateStore) (c : EventCandidate) (now : ℚ)
    (hfresh : rec_exists s c.event_id = false)
    (hnm : zmem (s.cand c.home_id) c.event_id = false)
    (hnodup : ((s.cand c.home_id).map Prod.fst).Nodup) :
    ((s.cand c.home_id).length ≤ s.max_candidates_per_home →
      ((add_candidate s c now).cand c.home_id).length ≤ s.max_candidates_per_home) ∧
    (∀ h, h ≠ c.home_id → (add_candidate s c now).cand h = s.cand h) ∧
    ((s.cand c.home_id).length = s.max_candidates_per_home →
      (∃ q ∈ s.cand c.home_id, q.2 < calculate_score c now ∧
        ∀ p ∈ s.cand c.home_id, q.2 ≤ p.2) →
      ∃ m0, m0 ∈ s.cand c.home_id ∧
        (∀ p ∈ s.cand c.home_id, m0.2 ≤ p.2) ∧
        (add_candidate s c now).cand c.home_id =
          ((c.event_id, calculate_score c now) :: s.cand c.home_id).filter
            (fun p => !(p.1 == m0.1)) ∧
        ((add_candidate s c now).cand c.home_id).length = s.max_candidates_per_home ∧
        get_candidate (add_candidate s c now) m0.1 = none ∧
        get_candidate (add_candidate s c now) c.event_id = some c ∧
        (∀ e, e ≠ m0.1 → e ≠ c.event_id →
          get_candidate (add_candidate s c now) e = get_candidate s e)) := by
  set sc := calculate_score c now with hsc
  set S2 : CandidateStore :=
    { s with recs := (c.event_id, c) :: s.recs,
             cand := (updateHome s.cand c.home_id (zadd (s.cand c.home_id) c.event_id sc)) }
    with hS2def
  have hadd : add_candidate s c now = cleanup_old_candidates S2 c.home_id :=
    add_candidate_fresh_eq s c now hfresh
  have hS2cand : S2.cand c.home_id = (c.event_id, sc) :: s.cand c.home_id := by
    rw [hS2def]
    show updateHome s.cand c.home_id (zadd (s.cand c.home_id) c.event_id sc) c.home_id = _
    unfold updateHome
    rw [if_pos rfl]
    exact zadd_of_not_mem _ hnm
  have hS2max : S2.max_candidates_per_home = s.max_candidates_per_home := by rw [hS2def]
  have hS2recs : S2.recs = (c.event_id, c) :: s.recs := by rw [hS2def]
  have hS2nodup : ((S2.cand c.home_id).map Prod.fst).Nodup := by
    rw [hS2cand]
    simp only [List.map_cons]
    rw [List.nodup_cons]
    refine ⟨?_, hnodup⟩
    intro hmem
    obtain ⟨p, hp, hfst⟩ := List.mem_map.mp hmem
    exact (zmem_false_iff.mp hnm p hp) hfst
  have hcandh : ∀ h, h ≠ c.home_id → S2.cand h = s.cand h := by
    intro h hne
    rw [hS2def]
    show updateHome s.cand c.home_id (zadd (s.cand c.home_id) c.event_id sc) h = s.cand h
    unfold updateHome
    rw [if_neg hne]
  refine ⟨?_, ?_, ?_⟩
  · intro hle
    rw [hadd]
    by_cases hover : (S2.cand c.home_id).length > S2.max_candidates_per_home
    · rw [← hS2max]
      rw [cleanup_length S2 c.home_id hS2nodup hover]
    · unfold cleanup_old_candidates
      rw [if_neg hover]
      rw [hS2cand] at hover
      rw [hS2max] at hover
      rw [hS2cand]
      simp only [List.length_cons] at hover ⊢
      omega
  · intro h hne
    rw [hadd]
    unfold cleanup_old_candidates
    split
    · show updateHome S2.cand c.home_id
        (zremMany (S2.cand c.home_id) (cleanupEvicted S2 c.home_id)) h = s.cand h
      unfold updateHome
      rw [if_neg hne]
      exact hcandh h hne
    · exact hcandh h hne
  · intro hcap hexq
    obtain ⟨q, hq, hqlt, hqmin⟩ := hexq
    have hover : (S2.cand c.home_id).length > S2.max_candidates_per_home := by
      rw [hS2cand, hS2max]
      simp only [List.length_cons]
      omega
    obtain ⟨m0, rest, hsort⟩ :
        ∃ m0 rest, zsort ((c.event_id, sc) :: s.cand c.home_id) = m0 :: rest := by
      cases hzs : zsort ((c.event_id, sc) :: s.cand c.home_id) with
      | nil =>
        exfalso
        have hl := zsort_length ((c.event_id, sc) :: s.cand c.home_id)
        rw [hzs] at hl
        simp at hl
      | cons a b => exact ⟨a, b, rfl⟩
    have hminz' : ∀ p ∈ (c.event_id, sc) :: s.cand c.home_id, m0.2 ≤ p.2 :=
      fun p hp => zle_score (zsort_head_min hsort p hp)
    have hm0mem' : m0 ∈ (c.event_id, sc) :: s.cand c.home_id :=
      zsort_mem.mp (by rw [hsort]; exact List.mem_cons_self _ _)
    have hm0lt : m0.2 < sc :=
      lt_of_le_of_lt (hminz' q (List.mem_cons_of_mem _ hq)) hqlt
    have hm0z : m0 ∈ s.cand c.home_id := by
      rcases List.mem_cons.mp hm0mem' with h0 | h0
      · exfalso
        rw [h0] at hm0lt
        exact lt_irrefl _ hm0lt
      · exact h0
    have hm0ne : m0.1 ≠ c.event_id := zmem_false_iff.mp hnm m0 hm0z
    have hev : cleanupEvicted S2 c.home_id = [m0.1] := by
      unfold cleanupEvicted zrangeTake
      rw [hS2cand, hS2max]
      have hk1 : ((c.event_id, sc) :: s.cand c.home_id).length -
          s.max_candidates_per_home = 1 := by
        simp only [List.length_cons]
        omega
      rw [hk1, hsort]
      rfl
    have hcand_eq : (cleanup_old_candidates S2 c.home_id).cand c.home_id =
        ((c.event_id, sc) :: s.cand c.home_id).filter (fun p => !(p.1 == m0.1)) := by
      unfold cleanup_old_candidates
      rw [if_pos hover]
      show updateHome S2.cand c.home_id
        (zremMany (S2.cand c.home_id) (cleanupEvicted S2 c.home_id)) c.home_id = _
      unfold updateHome
      rw [if_pos rfl, hev, hS2cand]
      exact filter_not_contains_singleton _ m0.1
    have hrecs_eq : (cleanup_old_candidates S2 c.home_id).recs =
        ((c.event_id, c) :: s.recs).filter (fun r => !(r.1 == m0.1)) := by
      unfold cleanup_old_candidates
      rw [if_pos hover]
      show S2.recs.filter (fun r => !((cleanupEvicted S2 c.home_id).contains r.1)) = _
      rw [hev, hS2recs]
      exact filter_not_contains_singleton _ m0.1
    have hlen_eq : ((cleanup_old_candidates S2 c.home_id).cand c.home_id).length =
        s.max_candidates_per_home := by
      rw [← hS2max]
      exact cleanup_length S2 c.home_id hS2nodup hover
    refine ⟨m0, hm0z, fun p hp => hminz' p (List.mem_cons_of_mem _ hp), ?_, ?_, ?_, ?_, ?_⟩
    · rw [hadd]
      exact hcand_eq
    · rw [hadd]
      exact hlen_eq
    · rw [hadd]
      unfold get_candidate
      rw [hrecs_eq]
      have hnone : (((c.event_id, c) :: s.recs).filter
          (fun r => !(r.1 == m0.1))).find? (fun r => r.1 == m0.1) = none := by
        rw [List.find?_eq_none]
        intro r hr
        have hmem := (List.mem_filter.mp hr).2
        simp at hmem ⊢
        exact hmem
      rw [hnone]
      rfl
    · rw [hadd]
      unfold get_candidate
      rw [hrecs_eq]
      have hhead : (!((c.event_id, c).1 == m0.1)) = true := by
        simp
        exact Ne.symm hm0ne
      rw [List.filter_cons, if_pos hhead]
      simp [List.find?_cons]
    · intro e he1 he2
      rw [hadd]
      unfold get_candidate
      rw [hrecs_eq]
      rw [find?_key_filter _ e m0.1 he1]
      have hhead : ((c.event_id, c).1 == e) = false := by
        simp
        exact Ne.symm he2
      simp [List.find?_cons, hhead]

/-- Witness for C7 amended at the small-cap store: the hypotheses hold
and a fresh add keeps the home at or below its cap. -/
theorem add_candidate_cap_amended_witness :
    rec_exists smallStore cNew.event_id = false ∧
    zmem (smallStore.cand "h1") cNew.event_id = false ∧
    (smallStore.cand "h1").length ≤ smallStore.max_candidates_per_home ∧
    ((add_candidate smallStore cNew 0).cand "h1").length ≤
      smallStore.max_candidates_per_home :=
  ⟨rfl, rfl, by decide,
   (add_candidate_cap_amended smallStore cNew 0 rfl rfl (by decide)).1 (by decide)⟩

theorem pyInsertDesc_perm (key : EventCandidate → ℚ) (x : EventCandidate)
    (l : List EventCandidate) : (pyInsertDesc key x l).Perm (x :: l) := by
  induction l with
  | nil => simp [pyInsertDesc]
  | cons y rest ih =>
    unfold pyInsertDesc
    split
    · exact List.Perm.refl _
    · exact (List.Perm.cons y ih).trans (List.Perm.swap x y rest)

theorem pyInsertDesc_sorted (key : EventCandidate → ℚ) (x : EventCandidate)
    {l : List EventCandidate} (h : List.Sorted (fun u v => key v ≤ key u) l) :
    List.Sorted (fun u v => key v ≤ key u) (pyInsertDesc key x l) := by
  induction l with
  | nil => simp [pyInsertDesc]
  | cons y rest ih =>
    rw [List.sorted_cons] at h
    unfold pyInsertDesc
    split
    · rename_i hyx
      rw [List.sorted_cons]
      refine ⟨?_, List.sorted_cons.mpr h⟩
      intro z hz
      rcases List.mem_cons.mp hz with rfl | hz'
      · exact hyx
      · exact le_trans (h.1 z hz') hyx
    · rename_i hyx
      rw [List.sorted_cons]
      constructor
      · intro z hz
        have hmem : z ∈ x :: rest := (pyInsertDesc_perm key x rest).mem_iff.mp hz
        rcases List.mem_cons.mp hmem with rfl | hz'
        · exact le_of_lt (not_le.mp hyx)
        · exact h.1 z hz'
      · exact ih h.2

theorem pySortDesc_sorted (key : EventCandidate → ℚ) (l : List EventCandidate) :
    List.Sorted (fun u v => key v ≤ key u) (pySortDesc key l) := by
  induction l with
  | nil => simp [pySortDesc]
  | cons x rest ih => exact pyInsertDesc_sorted key x ih

/-! ### C8 -/
/-- C8 counterexample: the claim says a top-K request with K = 1 over
two equal-score candidates in the same home returns the
lexicographically smaller event id.  `zrevrange` reads the sorted set
in reverse (score descending, ties in descending member order), so the
larger id `b` is returned, not `a`. -/
theorem top_k_tie_counterexample :
    S8.cand "h1" = [("a", 5), ("b", 5)] ∧
    strLtb "a" "b" = true ∧
    (get_top_candidates S8 "h1" 1).map EventCandidate.event_id = ["b"] ∧
    (get_top_candidates S8 "h1" 1).map EventCandidate.event_id ≠ ["a"] := by
  refine ⟨rfl, by decide, by decide, by decide⟩

/-- C8 amended: per-home candidate lists are read via `zrevrange`, i.e.
in descending score order with ties broken by descending (not
ascending) lexicographic event id - a top-K request with K = 1 over two
equal-score candidates returns the one with the lexicographically
larger event id - and the per-tier candidate list is the stable
descending re-sort by recomputed score of the per-home lists. -/
theorem top_k_tie_amended (s : CandidateStore) (home a b : String) (q : ℚ)
    (cb : EventCandidate)
    (hz : s.cand home = [(a, q), (b, q)])
    (hrecb : get_candidate s b = some cb)
    (hab : strLtb a b = true) :
    get_top_candidates s home 1 = [cb] ∧
    (∀ (homes : List String) (tier : ProcessingTier) (limit : ℕ) (t : ℚ),
      List.Sorted (fun u v => calculate_score v t ≤ calculate_score u t)
        (get_candidates_by_tier s homes tier limit t)) := by
  constructor
  · unfold get_top_candidates zrevrangeTake
    rw [hz]
    have hba : strLtb b a = false := lexLtb_asymm hab
    have hle : zleb (a, q) (b, q) = true := by
      simp [zleb, hba]
    have hsorted : zsort [(a, q), (b, q)] = [(a, q), (b, q)] := by
      simp [zsort, zinsert, hle]
    rw [hsorted]
    simp [hrecb]
  · intro homes tier limit t
    unfold get_candidates_by_tier
    exact List.Pairwise.sublist (List.take_sublist _ _) (pySortDesc_sorted _ _)

/-- Witness for C8 amended at the concrete tied store. -/
theorem top_k_tie_amended_witness :
    S8.cand "h1" = [("a", 5), ("b", 5)] ∧
    get_candidate S8 "b" = some cB ∧
    strLtb "a" "b" = true ∧
    get_top_candidates S8 "h1" 1 = [cB] :=
  ⟨rfl, rfl, by decide, (top_k_tie_amended S8 "h1" "a" "b" 5 cB rfl rfl (by decide)).1⟩

/-! ### C3 -/
/-- C3 counterexample: the claim says a candidate satisfying none of the
listed conditions makes `schedule_life_safety_event` return false with
no state change.  A candidate with explainer `"ALARM"` (mode guardian,
garden location, NORMAL priority) contains none of the substrings
verbatim, yet the code lowercases the explainer first and schedules it:
the call returns true and pushes an emergency session. -/
theorem life_safety_case_sensitivity_counterexample :
    spec_life_safety_cond cALARM = false ∧
    (schedule_life_safety_event stEx cALARM 0).1 = true ∧
    (schedule_life_safety_event stEx cALARM 0).2.emergency_queue ≠
      stEx.emergency_queue := by
  refine ⟨by decide, by decide, ?_⟩
  intro h
  have hl : is_life_safety_event cALARM = true := by decide
  have h2 : (schedule_life_safety_event stEx cALARM 0).2.emergency_queue =
      mk_life_safety_job cALARM 0 :: stEx.emergency_queue := by
    simp [schedule_life_safety_event, hl]
  rw [h2] at h
  have hlen := congrArg List.length h
  simp at hlen

/-- C3 amended: `schedule_life_safety_event` returns true exactly for
candidates whose mode is emergency/alarm, or whose lowercased
`lite_explainer` contains one of the indicator substrings
(case-insensitive containment), or whose location is front_door or
back_door with priority CRITICAL; for those it pushes the single-event
session (event_ids = [event_id], K = 12, deadline_ms = 2000) onto the
emergency queue, marks the event as processing, removes it from the
candidate store, and leaves every token bucket untouched; for all other
candidates it returns false and changes no state. -/
theorem schedule_life_safety_amended (st : SchedulerState) (c : EventCandidate)
    (now : ℚ) :
    (is_life_safety_event c = true ↔
      (c.mode = "emergency" ∨ c.mode = "alarm" ∨
       (∃ e, c.lite_explainer = some e ∧
          ∃ ind ∈ life_safety_indicators, strContains (lowerStr e) ind = true) ∨
       ((c.location = "front_door" ∨ c.location = "back_door") ∧
         c.priority = Priority.CRITICAL))) ∧
    (schedule_life_safety_event st c now).1 = is_life_safety_event c ∧
    (is_life_safety_event c = true →
      (schedule_life_safety_event st c now).2.emergency_queue =
        mk_life_safety_job c now :: st.emergency_queue ∧
      (mk_life_safety_job c now).event_ids = [c.event_id] ∧
      (mk_life_safety_job c now).K = 12 ∧
      (mk_life_safety_job c now).deadline_ms = 2000 ∧
      (schedule_life_safety_event st c now).2.token_buckets = st.token_buckets ∧
      (schedule_life_safety_event st c now).2.store =
        remove_candidate st.store c.event_id c.home_id) ∧
    (is_life_safety_event c = false →
      (schedule_life_safety_event st c now).1 = false ∧
      (schedule_life_safety_event st c now).2 = st) := by
  have hprio : (decide (Priority.CRITICAL.val ≤ c.priority.val) = true) ↔
      c.priority = Priority.CRITICAL := by
    cases hp : c.priority <;> simp [Priority.val]
  refine ⟨?_, ?_, ?_, ?_⟩
  · cases hexp : c.lite_explainer with
    | none =>
      simp only [is_life_safety_event, hexp, Bool.or_eq_true, Bool.and_eq_true,
        beq_iff_eq, List.any_eq_true, hprio]
      constructor
      · rintro ((h | h) | h)
        · exact absurd h (by simp)
        · exact Or.inr (Or.inr (Or.inr ⟨h.1, h.2⟩))
        · rcases h with h | h
          · exact Or.inl h
          · exact Or.inr (Or.inl h)
      · rintro (h | h | h | h)
        · exact Or.inr (Or.inl h)
        · exact Or.inr (Or.inr h)
        · obtain ⟨e, he, _⟩ := h
          exact absurd he (by simp [hexp])
        · exact Or.inl (Or.inr ⟨h.1, h.2⟩)
    | some e =>
      simp only [is_life_safety_event, hexp, Bool.or_eq_true, Bool.and_eq_true,
        beq_iff_eq, List.any_eq_true, hprio]
      constructor
      · rintro ((h | h) | h)
        · obtain ⟨ind, hind, hc⟩ := h
          exact Or.inr (Or.inr (Or.inl ⟨e, rfl, ind, hind, hc⟩))
        · exact Or.inr (Or.inr (Or.inr ⟨h.1, h.2⟩))
        · rcases h with h | h
          · exact Or.inl h
          · exact Or.inr (Or.inl h)
      · rintro (h | h | h | h)
        · exact Or.inr (Or.inl h)
        · exact Or.inr (Or.inr h)
        · obtain ⟨e', he', ind, hind, hc⟩ := h
          obtain rfl : e' = e := (Option.some.inj he').symm
          exact Or.inl (Or.inl ⟨ind, hind, hc⟩)
        · exact Or.inl (Or.inr ⟨h.1, h.2⟩)
  · by_cases h : is_life_safety_event c = true
    · simp [schedule_life_safety_event, h]
    · simp [schedule_life_safety_event, Bool.eq_false_iff.mpr h,
        Bool.of_not_eq_true h]
  · intro h
    refine ⟨?_, rfl, rfl, rfl, ?_, ?_⟩ <;>
      simp [schedule_life_safety_event, h]
  · intro h
    constructor <;> simp [schedule_life_safety_event, h]

/-- Witness for C3 amended: an emergency-mode candidate is scheduled,
the queue head carries `K = 12` and `deadline_ms = 2000`, and the token
buckets are untouched. -/
theorem schedule_life_safety_amended_witness :
    is_life_safety_event cEmerg = true ∧
    (schedule_life_safety_event stEx cEmerg 0).2.emergency_queue =
      mk_life_safety_job cEmerg 0 :: stEx.emergency_queue ∧
    (schedule_life_safety_event stEx cEmerg 0).2.token_buckets =
      stEx.token_buckets :=
  ⟨by decide, ((schedule_life_safety_amended stEx cEmerg 0).2.2.1 (by decide)).1,
   ((schedule_life_safety_amended stEx cEmerg 0).2.2.1 (by decide)).2.2.2.2.1⟩

theorem dur_sum_succ_left (dur : ℕ → ℚ) (i : ℕ) :
    ∀ m, dur_sum dur i (m + 1) = dur i + dur_sum dur (i + 1) m := by
  intro m
  induction m with
  | zero => simp [dur_sum]
  | succ k ih =>
    have hidx : i + (k + 1) = (i + 1) + k := by omega
    calc dur_sum dur i (k + 1 + 1)
        = dur_sum dur i (k + 1) + dur (i + (k + 1)) := rfl
      _ = (dur i + dur_sum dur (i + 1) k) + dur ((i + 1) + k) := by rw [ih, hidx]
      _ = dur i + (dur_sum dur (i + 1) k + dur ((i + 1) + k)) := by ring
      _ = dur i + dur_sum dur (i + 1) (k + 1) := rfl

theorem session_loop_count (d : ℕ) (dur : ℕ → ℚ)
    (res : ℕ → Except String SessEventOut) :
    ∀ (ids : List String) (i : ℕ) (acc : LoopAcc),
      ∃ n, n ≤ ids.length ∧
        (session_loop d dur res ids i acc).entries.length = acc.entries.length + n ∧
        (∀ j, j < n → acc.elapsed + dur_sum dur i j ≤ (d : ℚ) * (8/10)) ∧
        (n = ids.length ∨ acc.elapsed + dur_sum dur i n > (d : ℚ) * (8/10)) := by
  intro ids
  induction ids with
  | nil =>
    intro i acc
    refine ⟨0, le_refl 0, by simp [session_loop], ?_, Or.inl rfl⟩
    intro j hj
    exact absurd hj (Nat.not_lt_zero j)
  | cons e rest ih =>
    intro i acc
    by_cases hstop : acc.elapsed > (d : ℚ) * (8/10)
    · refine ⟨0, Nat.zero_le _, by simp [session_loop, hstop], ?_, Or.inr ?_⟩
      · intro j hj
        exact absurd hj (Nat.not_lt_zero j)
      · simpa [dur_sum] using hstop
    · cases hres : res i with
      | ok out =>
        obtain ⟨n', hn'le, hn'len, hn'all, hn'stop⟩ := ih (i + 1)
          { elapsed := acc.elapsed + dur i,
            entries := acc.entries ++ [.ok e out],
            total_risk := acc.total_risk + out.risk_score,
            threats := acc.threats ++ extract_threats e out.detections }
        refine ⟨n' + 1, by simpa using Nat.succ_le_succ hn'le, ?_, ?_, ?_⟩
        · simp only [session_loop, if_neg hstop, hres]
          rw [hn'len]
          simp only [List.length_append, List.length_cons, List.length_nil]
          omega
        · intro j hj
          cases j with
          | zero =>
            simpa [dur_sum] using le_of_not_lt hstop
          | succ j' =>
            have hj' := hn'all j' (Nat.lt_of_succ_lt_succ hj)
            rw [dur_sum_succ_left]
            calc acc.elapsed + (dur i + dur_sum dur (i + 1) j')
                = (acc.elapsed + dur i) + dur_sum dur (i + 1) j' := by ring
              _ ≤ (d : ℚ) * (8/10) := hj'
        · rcases hn'stop with h | h
          · exact Or.inl (by simp [h])
          · right
            rw [dur_sum_succ_left]
            calc acc.elapsed + (dur i + dur_sum dur (i + 1) n')
                = (acc.elapsed + dur i) + dur_sum dur (i + 1) n' := by ring
              _ > (d : ℚ) * (8/10) := h
      | error msg =>
        obtain ⟨n', hn'le, hn'len, hn'all, hn'stop⟩ := ih (i + 1)
          { elapsed := acc.elapsed + dur i,
            entries := acc.entries ++ [.err e msg],
            total_risk := acc.total_risk,
            threats := acc.threats }
        refine ⟨n' + 1, by simpa using Nat.succ_le_succ hn'le, ?_, ?_, ?_⟩
        · simp only [session_loop, if_neg hstop, hres]
          rw [hn'len]
          simp only [List.length_append, List.length_cons, List.length_nil]
          omega
        · intro j hj
          cases j with
          | zero =>
            simpa [dur_sum] using le_of_not_lt hstop
          | succ j' =>
            have hj' := hn'all j' (Nat.lt_of_succ_lt_succ hj)
            rw [dur_sum_succ_left]
            calc acc.elapsed + (dur i + dur_sum dur (i + 1) j')
                = (acc.elapsed + dur i) + dur_sum dur (i + 1) j' := by ring
              _ ≤ (d : ℚ) * (8/10) := hj'
        · rcases hn'stop with h | h
          · exact Or.inl (by simp [h])
          · right
            rw [dur_sum_succ_left]
            calc acc.elapsed + (dur i + dur_sum dur (i + 1) n')
                = (acc.elapsed + dur i) + dur_sum dur (i + 1) n' := by ring
              _ > (d : ℚ) * (8/10) := h

theorem session_loop_entries_nil (d : ℕ) (dur : ℕ → ℚ)
    (res : ℕ → Except String SessEventOut) :
    ∀ (ids : List String) (i : ℕ) (acc : LoopAcc),
      (session_loop d dur res ids i acc).entries = [] →
      (session_loop d dur res ids i acc).total_risk = acc.total_risk := by
  intro ids
  induction ids with
  | nil =>
    intro i acc _
    rfl
  | cons e rest ih =>
    intro i acc h
    by_cases hstop : acc.elapsed > (d : ℚ) * (8/10)
    · simp [session_loop, hstop]
    · cases hres : res i with
      | ok out =>
        simp only [session_loop, if_neg hstop, hres] at h ⊢
        obtain ⟨m, hmle, hmlen, -, -⟩ := session_loop_count d dur res rest (i + 1)
          { elapsed := acc.elapsed + dur i,
            entries := acc.entries ++ [.ok e out],
            total_risk := acc.total_risk + out.risk_score,
            threats := acc.threats ++ extract_threats e out.detections }
        rw [h] at hmlen
        simp only [List.length_append, List.length_cons, List.length_nil] at hmlen
        omega
      | error msg =>
        simp only [session_loop, if_neg hstop, hres] at h ⊢
        obtain ⟨m, hmle, hmlen, -, -⟩ := session_loop_count d dur res rest (i + 1)
          { elapsed := acc.elapsed + dur i,
            entries := acc.entries ++ [.err e msg],
            total_risk := acc.total_risk,
            threats := acc.threats }
        rw [h] at hmlen
        simp only [List.length_append, List.length_cons, List.length_nil] at hmlen
        omega

/-! ### C4 -/
/-- C4 counterexample: the claim says a session that processed zero
events has `success = false` with error message `deadline-exceeded`.
With 900 ms already elapsed at the first check of a 1000 ms-deadline
session, the loop stops before any event, yet the result still has
`success = true` and no error message (the string `deadline-exceeded`
appears nowhere in the code). -/
theorem deadline_zero_events_success_counterexample :
    ((process_session sessD 900 dur0 res0).findings.map
      (fun f => f.events_processed)) = some [] ∧
    (process_session sessD 900 dur0 res0).success = true ∧
    (process_session sessD 900 dur0 res0).error_message = none := by
  have hgt : (900 : ℚ) > ((1000 : ℕ) : ℚ) * (8/10) := by norm_num
  refine ⟨?_, rfl, rfl⟩
  show some (session_loop sessD.deadline_ms dur0 res0 ["e1"] 0
    { elapsed := 900, entries := [], total_risk := 0, threats := [] }).entries = some []
  rw [show sessD.deadline_ms = 1000 from rfl]
  simp only [session_loop]
  rw [if_pos hgt]

/-- C4 amended: the worker stops starting new events as soon as the
elapsed time strictly exceeds 0.8 * deadline_ms (each started event
began at or before that threshold, and the loop ends either by
exhausting min(K, |event_ids|) events or past the threshold); the
session result always has `success = true` and no error message,
whatever the number of processed events; `success = false` arises only
from an unhandled orchestration exception, whose text - never
"deadline-exceeded" - becomes the error message. -/
theorem process_session_deadline_amended (s : ProcessingSession) (pre : ℚ)
    (dur : ℕ → ℚ) (res : ℕ → Except String SessEventOut) :
    (process_session s pre dur res).success = true ∧
    (process_session s pre dur res).error_message = none ∧
    ∃ f n, (process_session s pre dur res).findings = some f ∧
      f.events_processed.length = n ∧
      n ≤ min s.K s.event_ids.length ∧
      (∀ j, j < n → pre + dur_sum dur 0 j ≤ (s.deadline_ms : ℚ) * (8/10)) ∧
      (n = min s.K s.event_ids.length ∨
        pre + dur_sum dur 0 n > (s.deadline_ms : ℚ) * (8/10)) := by
  obtain ⟨n, hle, hlen, hall, hstop⟩ := session_loop_count s.deadline_ms dur res
    (s.event_ids.take s.K) 0
    { elapsed := pre, entries := [], total_risk := 0, threats := [] }
  rw [List.length_take] at hle hstop
  refine ⟨rfl, rfl, _, n, rfl, ?_, hle, hall, hstop⟩
  simpa using hlen

/-- Witness for C4 amended at the one-event session with zero durations:
the whole session succeeds with its single event processed. -/
theorem process_session_deadline_amended_witness :
    (process_session sessD 0 dur0 res0).success = true ∧
    (process_session sessD 0 dur0 res0).error_message = none :=
  ⟨(process_session_deadline_amended sessD 0 dur0 res0).1,
   (process_session_deadline_amended sessD 0 dur0 res0).2.1⟩

/-! ### C9 -/
theorem foldl_notify_spec (wid : String) (b : Bool) (now : ℚ) :
    ∀ (ids : List String) (st : WorkerState),
      (ids.foldl (fun acc eid =>
        notify_scheduler_completion acc wid eid b now) st).scheduler_completions =
        (ids.map (fun eid => CompletionRecord.mk eid wid b now)).reverse ++
          st.scheduler_completions ∧
      (ids.foldl (fun acc eid =>
        notify_scheduler_completion acc wid eid b now) st).session_results =
        st.session_results ∧
      (ids.foldl (fun acc eid =>
        notify_scheduler_completion acc wid eid b now) st).digest_queue =
        st.digest_queue := by
  intro ids
  induction ids with
  | nil =>
    intro st
    exact ⟨by simp, rfl, rfl⟩
  | cons e rest ih =>
    intro st
    simp only [List.foldl_cons]
    obtain ⟨h1, h2, h3⟩ := ih (notify_scheduler_completion st wid e b now)
    refine ⟨?_, h2, h3⟩
    rw [h1]
    simp [notify_scheduler_completion]

/-- C9: for every processed session - normal completion or unhandled
orchestration exception - exactly one completion record
`{event_id, worker_id, success, completed_at}` is pushed to
`scheduler_completions` per entry of the session's `event_ids` list
(whether or not the event was individually processed), the session
result is stored under `session_result:{session_id}`, and on an
exception the stored result has `success = false` with the exception
text as the error message. -/
theorem session_completion_per_event (st : WorkerState) (worker_id : String)
    (s : ProcessingSession) (pre : ℚ) (dur : ℕ → ℚ)
    (res : ℕ → Except String SessEventOut) (exc : Option String) (now : ℚ) :
    (run_session st worker_id s pre dur res exc now).1.scheduler_completions =
      (s.event_ids.map (fun eid =>
        CompletionRecord.mk eid worker_id exc.isNone now)).reverse ++
        st.scheduler_completions ∧
    (run_session st worker_id s pre dur res exc now).1.session_results =
      ("session_result:" ++ s.session_id,
        (run_session st worker_id s pre dur res exc now).2) :: st.session_results ∧
    (∀ msg, exc = some msg →
      (run_session st worker_id s pre dur res exc now).2.success = false ∧
      (run_session st worker_id s pre dur res exc now).2.error_message = some msg) := by
  cases exc with
  | none =>
    refine ⟨?_, ?_, ?_⟩
    · show (handle_session_success st worker_id s _ now).scheduler_completions = _
      unfold handle_session_success
      exact (foldl_notify_spec worker_id true now s.event_ids _).1
    · show (handle_session_success st worker_id s _ now).session_results = _
      unfold handle_session_success
      exact (foldl_notify_spec worker_id true now s.event_ids _).2.1
    · intro msg h
      exact absurd h (by simp)
  | some msg' =>
    refine ⟨?_, ?_, ?_⟩
    · show (handle_session_failure st worker_id s _ now).scheduler_completions = _
      unfold handle_session_failure
      exact (foldl_notify_spec worker_id false now s.event_ids _).1
    · show (handle_session_failure st worker_id s _ now).session_results = _
      unfold handle_session_failure
      exact (foldl_notify_spec worker_id false now s.event_ids _).2.1
    · intro msg h
      obtain rfl : msg' = msg := Option.some.inj h
      exact ⟨rfl, rfl⟩

/-- Witness for C9 at a two-event session failing with exception
`boom`: both events get a `success = false` completion and the stored
result carries the exception text. -/
theorem session_completion_per_event_witness :
    (run_session wst0 "w1" sess9 0 dur0 res0 (some "boom") 0).1.scheduler_completions =
      (sess9.event_ids.map (fun eid =>
        CompletionRecord.mk eid "w1" false 0)).reverse ++ [] ∧
    (run_session wst0 "w1" sess9 0 dur0 res0 (some "boom") 0).2.success = false ∧
    (run_session wst0 "w1" sess9 0 dur0 res0 (some "boom") 0).2.error_message =
      some "boom" :=
  ⟨(session_completion_per_event wst0 "w1" sess9 0 dur0 res0 (some "boom") 0).1,
   ((session_completion_per_event wst0 "w1" sess9 0 dur0 res0 (some "boom") 0).2.2
      "boom" rfl).1,
   ((session_completion_per_event wst0 "w1" sess9 0 dur0 res0 (some "boom") 0).2.2
      "boom" rfl).2⟩

/-! ### C10 -/
/-- C10: the session-level risk aggregation never divides by zero - for
every session whose `events_processed` list ends up empty, the findings'
risk score is defined and equals 0, because the mean is computed as
`total_risk / max(1, processed_count)` and an empty entry list forces
`total_risk = 0`. -/
theorem session_risk_zero_when_no_events (s : ProcessingSession) (pre : ℚ)
    (dur : ℕ → ℚ) (res : ℕ → Except String SessEventOut)
    (f : SessionFindings)
    (hf : (process_session s pre dur res).findings = some f)
    (hempty : f.events_processed = []) : f.risk_score = 0 := by
  unfold process_session at hf
  simp only [Option.some.injEq] at hf
  subst hf
  simp only at hempty
  have htot := session_loop_entries_nil s.deadline_ms dur res
    (s.event_ids.take s.K) 0
    { elapsed := pre, entries := [], total_risk := 0, threats := [] } hempty
  simp only
  rw [htot]
  exact zero_div _

/-- Witness for C10 at a session with `K = 0`: no event is processed and
the risk score is 0. -/
theorem session_risk_zero_when_no_events_witness :
    ∃ f, (process_session sessK0 0 dur0 res0).findings = some f ∧
      f.events_processed = [] ∧ f.risk_score = 0 := by
  refine ⟨_, rfl, rfl, ?_⟩
  exact session_risk_zero_when_no_events sessK0 0 dur0 res0 _ rfl rfl

